import Mathlib

/-!
# Verification of `convert_json_to_csv.py`

Shallow embedding of `src/homework_data/homework02/convert_json_to_csv.py`
(a JSON → CSV converter), together with proofs about the embedded
definitions.

Modelling conventions:

* Python values that can be either an `int` or a `str` (the sample id, and
  the values stored in a wide-pivot row dict) are modelled by the sum type
  `Val`.
* Python dicts used as rows are modelled as association lists
  (`List (String × Val)`) with first-match lookup, in-place value update and
  append-on-miss insertion — matching insertion-ordered Python dicts.
* A JSON object field that may be absent is modelled by an `Option` field;
  `data.get(key, default)` becomes `Option.getD`.
* Operations that can raise a Python exception (`sorted` on incomparable
  keys, `csv.DictWriter` on unexpected keys) return `Except Unit`.
* Reading the input directories is outside the embedding: the extractors
  take the (filename-sorted) list of parsed documents as input.
-/

namespace ConvertJsonToCsv

/-- A Python scalar that is either an `int` or a `str`.  Filenames only
produce non-negative ids, so the `int` case carries a `Nat`. -/
inductive Val where
  | vInt (n : Nat) : Val
  | vStr (s : String) : Val
deriving DecidableEq, Repr

/-- Python `str()` of a `Val` (used by f-strings and by the CSV writer). -/
def valToString : Val → String
  | Val.vInt n => Nat.repr n
  | Val.vStr s => s

/-- Python truthiness of a `Val`: `0` and `""` are falsy. -/
def valTruthy : Val → Bool
  | Val.vInt n => n != 0
  | Val.vStr s => s != ""

/-- Numeric value of a decimal digit string, most significant digit first;
`int("0012") = 12` in Python, and this function agrees on digit lists. -/
def digitsToNat (ds : List Char) : Nat :=
  ds.foldl (fun n c => 10 * n + (c.toNat - 48)) 0

/-- Embedding of `extract_sample_id` (line 22): `SAMPLE_ID_RE.search`,
where `SAMPLE_ID_RE = re.compile(r"_(\d+)\.json$")`.

The regex matches iff the filename ends in `.json` and, scanning the stem,
the maximal run of decimal digits directly before `.json` is non-empty and
is directly preceded by an underscore (the regex `\d+` must consume every
character between the matched `_` and the `.json` suffix, so a match exists
exactly under that condition, and `match.group(1)` is that digit run).
On a match the code returns `int(group)`, otherwise the empty string.
The embedding works on the reversed character list so the suffix tests are
`take`/`drop` at the front. -/
def extract_sample_id (filename : String) : Val :=
  let r := filename.data.reverse
  if r.take 5 = ['n', 'o', 's', 'j', '.'] then
    let rest := r.drop 5
    let run := rest.takeWhile (fun c => c.isDigit)
    if run.length > 0 ∧ rest.get? run.length = some '_' then
      Val.vInt (digitsToNat run.reverse)
    else Val.vStr ""
  else Val.vStr ""

/-- Embedding of `parse_time_to_minutes` (line 42):
`re.match(r"^(\d{1,2}):(\d{2})", time_str or "")`; on failure return `0`,
on success `hours * 60 + minutes`.

The anchored regex with the greedy `\d{1,2}` matches iff either the first
five characters are digit, digit, `':'`, digit, digit (two-digit hour), or
the first four are digit, `':'`, digit, digit (one-digit hour; backtracking
reaches this case only when the second character is not a digit, and then
the two-digit test above has already failed).  Trailing characters are not
constrained.  `digit` is a decimal digit. -/
def parse_time_to_minutes (time_str : String) : Nat :=
  let cs := time_str.data
  let dig : Nat → Bool := fun i =>
    match cs.get? i with
    | some c => c.isDigit
    | none => false
  let colon : Nat → Bool := fun i => cs.get? i = some ':'
  let val : Nat → Nat := fun i =>
    match cs.get? i with
    | some c => c.toNat - 48
    | none => 0
  if dig 0 ∧ dig 1 ∧ colon 2 ∧ dig 3 ∧ dig 4 then
    (10 * val 0 + val 1) * 60 + (10 * val 3 + val 4)
  else if dig 0 ∧ colon 1 ∧ dig 2 ∧ dig 3 then
    val 0 * 60 + (10 * val 2 + val 3)
  else 0

example : extract_sample_id "john_1.json" = Val.vInt 1 := by decide
example : extract_sample_id "john_0012.json" = Val.vInt 12 := by decide
example : extract_sample_id "a5.json" = Val.vStr "" := by decide
example : extract_sample_id "a_1_2.json" = Val.vInt 2 := by decide
example : extract_sample_id "nodigits.json" = Val.vStr "" := by decide
example : extract_sample_id "a_12.txt" = Val.vStr "" := by decide
example : parse_time_to_minutes "08:00" = 480 := by decide
example : parse_time_to_minutes "9:15" = 555 := by decide
example : parse_time_to_minutes "9:5" = 0 := by decide
example : parse_time_to_minutes "99:99" = 6039 := by decide
example : parse_time_to_minutes "123:45" = 0 := by decide
example : parse_time_to_minutes "9:555extra" = 595 := by decide
example : parse_time_to_minutes "" = 0 := by decide

/-! ## Python dicts used as wide-pivot rows -/

/-- A wide-pivot row: a Python dict `str → int | str`, as an insertion-ordered
association list. -/
abbrev Row : Type := List (String × Val)

/-- `row.get(k)` / `row[k]`: first binding for `k`, if any. -/
def dget (row : Row) (k : String) : Option Val :=
  match row.find? (fun p => p.1 = k) with
  | some p => some p.2
  | none => none

/-- `row[k] = v`: replace the value of an existing binding in place, else
append a new binding at the end (Python dicts keep insertion order). -/
def dset (row : Row) (k : String) (v : Val) : Row :=
  match row with
  | [] => [(k, v)]
  | (k', v') :: rest => if k' = k then (k, v) :: rest else (k', v') :: dset rest k v

/-- `row.setdefault(k, v)`: insert `(k, v)` at the end only when `k` is
absent. -/
def dsetdefault (row : Row) (k : String) (v : Val) : Row :=
  match dget row k with
  | some _ => row
  | none => row ++ [(k, v)]

/-! ## Alias statement data and the wide pivot builder (lines 92–115) -/

/-- A statement entry `{time, location, activity}`; a field missing from the
JSON object is `none` (the code reads each with `entry.get(key, "")`). -/
structure Entry where
  time : Option String
  location : Option String
  activity : Option String
deriving DecidableEq, Repr

/-- One alias sample, as the dict built on lines 57–63: the extracted sample
id, the `suspect_statement` list (or `none` when the key is missing) and the
source file name. -/
structure Sample where
  sample_id : Val
  statements : Option (List Entry)
  source_file : String
deriving DecidableEq, Repr

/-- The statement list of a sample (`data.get("suspect_statement", [])`). -/
def stmtsOf (s : Sample) : List Entry := s.statements.getD []

/-- The time key an entry contributes (`entry.get("time", "")`). -/
def timeKey (e : Entry) : String := e.time.getD ""

/-- `f"({location}, {activity})"` for an entry (line 106). -/
def formatCell (e : Entry) : String :=
  "(" ++ e.location.getD "" ++ ", " ++ e.activity.getD "" ++ ")"

/-- Lines 103–110: fold one statement entry into the row dict, appending to
the cell with `" | "` when the cell is already truthy. -/
def addEntry (row : Row) (e : Entry) : Row :=
  let cell := formatCell e
  match dget row (timeKey e) with
  | some v =>
      if valTruthy v then dset row (timeKey e) (Val.vStr (valToString v ++ " | " ++ cell))
      else dset row (timeKey e) (Val.vStr cell)
  | none => dset row (timeKey e) (Val.vStr cell)

/-- Lines 101–112: the wide row for one sample, given the alias's sorted time
column list: start from `{"alias_sample_id": sample_id}`, fold the entries
in order, then `setdefault` every time column to `""`. -/
def buildRow (times : List String) (s : Sample) : Row :=
  let row : Row := [("alias_sample_id", s.sample_id)]
  let row := (stmtsOf s).foldl addEntry row
  times.foldl (fun r t => dsetdefault r t (Val.vStr "")) row

/-- Lines 93–96: the distinct `time` values over all statement entries of all
samples of the alias.  The Python code collects them in a `set`, whose
iteration order is unspecified; the embedding keeps first-occurrence order
(membership and distinctness agree with the set, and every property proved
below about the sorted column list is order-of-collection independent). -/
def collectTimes (samples : List Sample) : List String :=
  samples.foldl
    (fun acc s =>
      (stmtsOf s).foldl
        (fun acc e => if timeKey e ∈ acc then acc else acc ++ [timeKey e]) acc)
    []

/-- Stable insertion by a `Nat` key: the new element goes after every element
whose key is `≤` its own, which is exactly how Python's stable `sorted`
places an element relative to the ones before it. -/
def insertByKey (key : α → Nat) (x : α) : List α → List α
  | [] => [x]
  | y :: ys => if key x < key y then x :: y :: ys else y :: insertByKey key x ys

/-- Stable sort by a `Nat` key, processing elements left to right. -/
def sortByKey (key : α → Nat) (l : List α) : List α :=
  l.foldl (fun acc x => insertByKey key x acc) []

/-- Line 97: `times = sorted(time_set, key=parse_time_to_minutes)`. -/
def sortedTimes (samples : List Sample) : List String :=
  sortByKey parse_time_to_minutes (collectTimes samples)

/-- The formatted `(location, activity)` cells of the entries of `s` whose
time key is `t`, in entry order. -/
def pairsAt (s : Sample) (t : String) : List String :=
  ((stmtsOf s).filter (fun e => timeKey e = t)).map formatCell

/-- Concatenation with the `" | "` separator (`f"{old} | {cell}"`). -/
def joinBar : List String → String
  | [] => ""
  | [p] => p
  | p :: ps => p ++ " | " ++ joinBar ps

/-- Python `str.split(" | ")` on character lists: cut at each non-overlapping
leftmost occurrence of the separator. -/
def splitBarChars : List Char → List (List Char)
  | c :: d :: e :: rest =>
      if c = ' ' ∧ d = '|' ∧ e = ' ' then [] :: splitBarChars rest
      else
        match splitBarChars (d :: e :: rest) with
        | [] => [[c]]
        | p :: ps => (c :: p) :: ps
  | [] => [[]]
  | l => [l]

/-- Python `str.split(" | ")` on strings. -/
def splitBar (s : String) : List String :=
  (splitBarChars s.data).map (fun cs => String.mk cs)

example : splitBar "(a, b) | (c, d)" = ["(a, b)", "(c, d)"] := by decide
example : splitBar "" = [""] := by decide
example : joinBar ["x", "y", "z"] = "x | y | z" := rfl

/-! ## Sorting samples by sample id (line 100)

`sorted(samples, key=lambda s: s["sample_id"])` compares sample ids with
Python `<`, which raises `TypeError` on an `int`/`str` pair.  The embedding
is a stable insertion sort over a fallible comparison: like Python's stable
`sorted`, it places each element after the already-placed elements whose
keys are not greater, and it fails exactly when it compares an `int` id
with a `str` id. -/

/-- Python `<` on sample ids: defined within a type, `TypeError` across. -/
def pyLt : Val → Val → Except Unit Bool
  | Val.vInt a, Val.vInt b => Except.ok (decide (a < b))
  | Val.vStr a, Val.vStr b => Except.ok (decide (a < b))
  | _, _ => Except.error ()

/-- Insert a sample into an already sorted list, failing on an incomparable
pair of ids: the new sample goes after every already-placed sample whose id
is not greater, which is where Python's stable sort puts it. -/
def insertSampleE (x : Sample) : List Sample → Except Unit (List Sample)
  | [] => Except.ok [x]
  | y :: ys =>
      match pyLt x.sample_id y.sample_id with
      | Except.error e => Except.error e
      | Except.ok true => Except.ok (x :: y :: ys)
      | Except.ok false =>
          match insertSampleE x ys with
          | Except.error e => Except.error e
          | Except.ok r => Except.ok (y :: r)

/-- Left-to-right insertion pass, propagating a comparison failure. -/
def sortSamplesAux : List Sample → List Sample → Except Unit (List Sample)
  | [], acc => Except.ok acc
  | x :: xs, acc =>
      match insertSampleE x acc with
      | Except.error e => Except.error e
      | Except.ok acc' => sortSamplesAux xs acc'

/-- `sorted(samples, key=lambda s: s["sample_id"])` (line 100). -/
def sortSamplesE (l : List Sample) : Except Unit (List Sample) :=
  sortSamplesAux l []

/-! ## The CSV writer (`write_csv`, lines 29–34)

`csv.DictWriter(f, fieldnames=fieldnames)` keeps the defaults
`restval=''` and `extrasaction='raise'`: a fieldname absent from a row dict
renders as the empty string, while a row key outside `fieldnames` makes
`writerow` raise `ValueError`.  The writer's output is modelled as the list
of written lines, each line the list of its cell strings (the csv module
converts a non-`str` cell with `str()`); path handling, the byte-level
encoding and quoting are outside the claims and outside the model. -/

/-- `DictWriter._dict_to_list`: reject keys outside `fieldnames`, then emit
one cell per fieldname, defaulting to `restval=''`. -/
def dict_to_list (fieldnames : List String) (row : Row) : Except Unit (List String) :=
  if row.all (fun p => p.1 ∈ fieldnames) then
    Except.ok (fieldnames.map (fun f =>
      match dget row f with
      | some v => valToString v
      | none => ""))
  else Except.error ()

/-- `writer.writerows(rows)`: convert each row dict in order, stopping at
the first `ValueError`. -/
def mapDictRows (fieldnames : List String) : List Row → Except Unit (List (List String))
  | [] => Except.ok []
  | row :: rest =>
      match dict_to_list fieldnames row with
      | Except.error e => Except.error e
      | Except.ok line =>
          match mapDictRows fieldnames rest with
          | Except.error e => Except.error e
          | Except.ok lines => Except.ok (line :: lines)

/-- `write_csv(path, fieldnames, rows)`: the header line followed by one
line per row. -/
def write_csv (fieldnames : List String) (rows : List Row) :
    Except Unit (List (List String)) :=
  match mapDictRows fieldnames rows with
  | Except.error e => Except.error e
  | Except.ok body => Except.ok (fieldnames :: body)

/-! ## Flat-table extractors (lines 51–76 and 124–175)

Input documents are modelled per-schema, with `Option` for keys that
`data.get(key, default)` may find missing.  Each extractor is the loop body
of `main` made into a function of the (filename-sorted) document list; rows
are structures whose fields mirror the dict literals in the code. -/

/-- A GPS entry `{time, location, signal_strength}`. -/
structure GpsEntry where
  time : Option String
  location : Option String
  signal_strength : Option String
deriving DecidableEq, Repr

/-- One witness's data: `{witness_reliability, observations}`. -/
structure WitnessData where
  witness_reliability : Option String
  observations : Option (List Entry)
deriving DecidableEq, Repr

/-- An alias JSON document (`name`, `suspect_statement`). -/
structure AliasDoc where
  name : Option String
  suspect_statement : Option (List Entry)
deriving DecidableEq, Repr

/-- A suspect JSON document; `witness_statements` is an insertion-ordered
dict, modelled as an association list of `(witness name, data)`. -/
structure SuspectDoc where
  name : Option String
  suspect_statement : Option (List Entry)
  gps_data : Option (List GpsEntry)
  witness_statements : Option (List (String × WitnessData))
deriving DecidableEq, Repr

/-- A row of `alias_statements.csv` (dict literal on lines 66–76). -/
structure AliasStmtRow where
  alias_name : String
  alias_sample_id : Val
  statement_index : Nat
  time : String
  location : String
  activity : String
  source_file : String
deriving DecidableEq, Repr

/-- A row of `suspect_statements.csv` (lines 129–138). -/
structure SuspectStmtRow where
  suspect_name : String
  statement_index : Nat
  time : String
  location : String
  activity : String
  source_file : String
deriving DecidableEq, Repr

/-- A row of `suspect_gps.csv` (lines 141–150). -/
structure GpsRow where
  suspect_name : String
  gps_index : Nat
  time : String
  location : String
  signal_strength : String
  source_file : String
deriving DecidableEq, Repr

/-- A row of `witnesses.csv` (lines 153–162). -/
structure WitnessRow where
  suspect_name : String
  witness_name : String
  witness_reliability : String
  source_file : String
deriving DecidableEq, Repr

/-- A row of `witness_observations.csv` (lines 165–175). -/
structure WitnessObsRow where
  suspect_name : String
  witness_name : String
  observation_index : Nat
  time : String
  location : String
  activity : String
  source_file : String
deriving DecidableEq, Repr

/-- Alias-statement rows contributed by one alias file (lines 64–76). -/
def aliasStmtRowsOf (fn : String) (d : AliasDoc) : List AliasStmtRow :=
  (d.suspect_statement.getD []).enum.map (fun p =>
    { alias_name := d.name.getD ""
      alias_sample_id := extract_sample_id fn
      statement_index := p.1
      time := p.2.time.getD ""
      location := p.2.location.getD ""
      activity := p.2.activity.getD ""
      source_file := fn })

/-- `alias_rows` over all alias files (lines 52–76). -/
def alias_rows (files : List (String × AliasDoc)) : List AliasStmtRow :=
  files.flatMap (fun p => aliasStmtRowsOf p.1 p.2)

/-- Suspect-statement rows contributed by one suspect file (lines 128–138). -/
def suspectStmtRowsOf (fn : String) (d : SuspectDoc) : List SuspectStmtRow :=
  (d.suspect_statement.getD []).enum.map (fun p =>
    { suspect_name := d.name.getD ""
      statement_index := p.1
      time := p.2.time.getD ""
      location := p.2.location.getD ""
      activity := p.2.activity.getD ""
      source_file := fn })

/-- `suspect_statement_rows` over all suspect files. -/
def suspect_statement_rows (files : List (String × SuspectDoc)) : List SuspectStmtRow :=
  files.flatMap (fun p => suspectStmtRowsOf p.1 p.2)

/-- GPS rows contributed by one suspect file (lines 140–150). -/
def gpsRowsOf (fn : String) (d : SuspectDoc) : List GpsRow :=
  (d.gps_data.getD []).enum.map (fun p =>
    { suspect_name := d.name.getD ""
      gps_index := p.1
      time := p.2.time.getD ""
      location := p.2.location.getD ""
      signal_strength := p.2.signal_strength.getD ""
      source_file := fn })

/-- `gps_rows` over all suspect files. -/
def gps_rows (files : List (String × SuspectDoc)) : List GpsRow :=
  files.flatMap (fun p => gpsRowsOf p.1 p.2)

/-- Witness rows contributed by one suspect file (lines 152–162). -/
def witnessRowsOf (fn : String) (d : SuspectDoc) : List WitnessRow :=
  (d.witness_statements.getD []).map (fun w =>
    { suspect_name := d.name.getD ""
      witness_name := w.1
      witness_reliability := w.2.witness_reliability.getD ""
      source_file := fn })

/-- `witness_rows` over all suspect files. -/
def witness_rows (files : List (String × SuspectDoc)) : List WitnessRow :=
  files.flatMap (fun p => witnessRowsOf p.1 p.2)

/-- Witness-observation rows contributed by one suspect file (lines 164–175). -/
def witnessObsRowsOf (fn : String) (d : SuspectDoc) : List WitnessObsRow :=
  (d.witness_statements.getD []).flatMap (fun w =>
    (w.2.observations.getD []).enum.map (fun p =>
      { suspect_name := d.name.getD ""
        witness_name := w.1
        observation_index := p.1
        time := p.2.time.getD ""
        location := p.2.location.getD ""
        activity := p.2.activity.getD ""
        source_file := fn }))

/-- `witness_observation_rows` over all suspect files. -/
def witness_observation_rows (files : List (String × SuspectDoc)) : List WitnessObsRow :=
  files.flatMap (fun p => witnessObsRowsOf p.1 p.2)

/-! ## Theorems -/

/-- The time sort key as the spec describes it (§4.3 step 2, §8): take the
leading run of decimal digits as the hour field, require its length to be
one or two, require a colon and then exactly two digits for the minute
field, and return `hours * 60 + minutes`; everything after the matched
prefix is ignored and any failure yields `0`.  Written independently of the
regex embedding above; the refinement theorem below compares the two. -/
def timeKeySpec (s : String) : Nat :=
  let hourRun := s.data.takeWhile (fun c => c.isDigit)
  if 1 ≤ hourRun.length ∧ hourRun.length ≤ 2 then
    match s.data.drop hourRun.length with
    | ':' :: m1 :: m2 :: _ =>
        if m1.isDigit ∧ m2.isDigit then
          digitsToNat hourRun * 60 + (10 * (m1.toNat - 48) + (m2.toNat - 48))
        else 0
    | _ => 0
  else 0

/-- Claim C4: for every time string the sort key comes from parsing a
leading `H:MM` or `HH:MM` prefix (one or two hour digits, exactly two
minute digits) into minutes since midnight, any string whose minute group
does not match exactly two digits parses to key `0`, and in particular
`"9:5"` gets key `0`. -/
theorem parse_time_to_minutes_refines_spec :
    (∀ s : String, parse_time_to_minutes s = timeKeySpec s) ∧
      parse_time_to_minutes "9:5" = 0 := by
  constructor
  · intro s
    obtain ⟨cs⟩ := s
    rcases cs with _ | ⟨a, _ | ⟨b, _ | ⟨c, _ | ⟨d, _ | ⟨e, rest⟩⟩⟩⟩⟩
    · decide
    · by_cases ha : a.isDigit <;>
        simp [parse_time_to_minutes, timeKeySpec, List.takeWhile, ha]
    · by_cases ha : a.isDigit <;> by_cases hb : b.isDigit <;>
        simp [parse_time_to_minutes, timeKeySpec, List.takeWhile, ha, hb]
    · by_cases ha : a.isDigit <;> by_cases hb : b.isDigit <;>
        by_cases hc : c.isDigit <;>
        simp [parse_time_to_minutes, timeKeySpec, List.takeWhile, ha, hb, hc]
    · by_cases ha : a.isDigit <;> by_cases hb : b.isDigit <;>
        by_cases hbc : b = ':' <;> by_cases hc : c.isDigit <;>
        by_cases hd : d.isDigit <;>
        simp_all [parse_time_to_minutes, timeKeySpec, List.takeWhile,
          digitsToNat]
    · by_cases ha : a.isDigit <;> by_cases hb : b.isDigit <;>
        by_cases hbc : b = ':' <;> by_cases hcc : c = ':' <;>
        by_cases hc : c.isDigit <;> by_cases hd : d.isDigit <;>
        by_cases he : e.isDigit <;>
        simp_all [parse_time_to_minutes, timeKeySpec, List.takeWhile,
          digitsToNat]
  · decide

/-- Claim C9: parsing imposes no 24-hour range check — any prefix of one or
two digits, a colon and two digits parses to `hours * 60 + minutes` with
trailing text ignored — and `"99:99"` yields `6039`. -/
theorem parse_time_to_minutes_no_range_check :
    (∀ (a b d e : Char) (rest : List Char), a.isDigit → b.isDigit →
        d.isDigit → e.isDigit →
        parse_time_to_minutes (String.mk (a :: b :: ':' :: d :: e :: rest)) =
          (10 * (a.toNat - 48) + (b.toNat - 48)) * 60 +
            (10 * (d.toNat - 48) + (e.toNat - 48))) ∧
    (∀ (a d e : Char) (rest : List Char), a.isDigit → d.isDigit → e.isDigit →
        parse_time_to_minutes (String.mk (a :: ':' :: d :: e :: rest)) =
          (a.toNat - 48) * 60 + (10 * (d.toNat - 48) + (e.toNat - 48))) ∧
    parse_time_to_minutes "99:99" = 6039 := by
  refine ⟨?_, ?_, by decide⟩
  · intro a b d e rest ha hb hd he
    simp [parse_time_to_minutes, ha, hb, hd, he]
  · intro a d e rest ha hd he
    simp [parse_time_to_minutes, ha, hd, he]

/-- Witness for C9: instantiating the range-free parse at `"99:99"`. -/
theorem parse_time_to_minutes_no_range_check_witness :
    parse_time_to_minutes (String.mk ('9' :: '9' :: ':' :: '9' :: '9' :: [])) =
      (10 * ('9'.toNat - 48) + ('9'.toNat - 48)) * 60 +
        (10 * ('9'.toNat - 48) + ('9'.toNat - 48)) :=
  parse_time_to_minutes_no_range_check.1 '9' '9' '9' '9' []
    (by decide) (by decide) (by decide) (by decide)

/-- Claim C7: every flat-table extractor emits one row per element of the
corresponding nested sequence, so its row count is the sum over input
records of that sequence's length (observations additionally sum over the
witnesses of each suspect). -/
theorem extractor_row_counts (afiles : List (String × AliasDoc))
    (sfiles : List (String × SuspectDoc)) :
    (alias_rows afiles).length =
        (afiles.map (fun p => (p.2.suspect_statement.getD []).length)).sum ∧
    (suspect_statement_rows sfiles).length =
        (sfiles.map (fun p => (p.2.suspect_statement.getD []).length)).sum ∧
    (gps_rows sfiles).length =
        (sfiles.map (fun p => (p.2.gps_data.getD []).length)).sum ∧
    (witness_rows sfiles).length =
        (sfiles.map (fun p => (p.2.witness_statements.getD []).length)).sum ∧
    (witness_observation_rows sfiles).length =
        (sfiles.map (fun p =>
          ((p.2.witness_statements.getD []).map (fun w =>
            (w.2.observations.getD []).length)).sum)).sum := by
  refine ⟨?_, ?_, ?_, ?_, ?_⟩ <;>
    simp [alias_rows, aliasStmtRowsOf, suspect_statement_rows,
      suspectStmtRowsOf, gps_rows, gpsRowsOf, witness_rows, witnessRowsOf,
      witness_observation_rows, witnessObsRowsOf, List.length_flatMap,
      Function.comp_def, List.enum_length]

/-- Claim C8: a missing nested key (`time`, `location`, `activity`, `name`,
`signal_strength`, `witness_reliability`) renders as the empty string in
the emitted row, and a missing nested collection (`suspect_statement`,
`gps_data`, `witness_statements`, `observations`) contributes zero rows;
extraction is total and never fails on absent fields. -/
theorem missing_fields_default :
    (∀ (fn : String) (nm : Option String),
        aliasStmtRowsOf fn ⟨nm, none⟩ = []) ∧
    (∀ fn : String,
        aliasStmtRowsOf fn ⟨none, some [⟨none, none, none⟩]⟩ =
          [⟨"", extract_sample_id fn, 0, "", "", "", fn⟩]) ∧
    (∀ (fn : String) (nm : Option String) (gd : Option (List GpsEntry))
        (ws : Option (List (String × WitnessData))),
        suspectStmtRowsOf fn ⟨nm, none, gd, ws⟩ = []) ∧
    (∀ fn : String,
        suspectStmtRowsOf fn ⟨none, some [⟨none, none, none⟩], none, none⟩ =
          [⟨"", 0, "", "", "", fn⟩]) ∧
    (∀ (fn : String) (nm : Option String) (st : Option (List Entry))
        (ws : Option (List (String × WitnessData))),
        gpsRowsOf fn ⟨nm, st, none, ws⟩ = []) ∧
    (∀ fn : String,
        gpsRowsOf fn ⟨none, none, some [⟨none, none, none⟩], none⟩ =
          [⟨"", 0, "", "", "", fn⟩]) ∧
    (∀ (fn : String) (nm : Option String) (st : Option (List Entry))
        (gd : Option (List GpsEntry)),
        witnessRowsOf fn ⟨nm, st, gd, none⟩ = [] ∧
          witnessObsRowsOf fn ⟨nm, st, gd, none⟩ = []) ∧
    (∀ (fn wn : String),
        witnessRowsOf fn ⟨none, none, none, some [(wn, ⟨none, none⟩)]⟩ =
          [⟨"", wn, "", fn⟩]) ∧
    (∀ (fn wn : String),
        witnessObsRowsOf fn ⟨none, none, none, some [(wn, ⟨none, none⟩)]⟩ =
          []) ∧
    (∀ (fn wn : String),
        witnessObsRowsOf fn
            ⟨none, none, none, some [(wn, ⟨none, some [⟨none, none, none⟩]⟩)]⟩ =
          [⟨"", wn, 0, "", "", "", fn⟩]) := by
  refine ⟨?_, ?_, ?_, ?_, ?_, ?_, ?_, ?_, ?_, ?_⟩ <;>
    intros <;>
    simp [aliasStmtRowsOf, suspectStmtRowsOf, gpsRowsOf, witnessRowsOf,
      witnessObsRowsOf, List.enum]

/-- `takeWhile` walks through a prefix whose elements all satisfy the
predicate. -/
theorem takeWhile_append_all {p : Char → Bool} :
    ∀ (l₁ l₂ : List Char), (∀ c ∈ l₁, p c = true) →
      (l₁ ++ l₂).takeWhile p = l₁ ++ l₂.takeWhile p := by
  intro l₁ l₂ h
  induction l₁ with
  | nil => simp
  | cons c cs ih =>
      have hc : p c = true := h c (by simp)
      simp only [List.cons_append, List.takeWhile_cons, hc, if_true]
      rw [ih (fun x hx => h x (by simp [hx]))]

/-- Computation of `extract_sample_id` on a filename of the shape
`<stem>_<digits>.json`, phrased on the reversed character list. -/
theorem extract_sample_id_of_shape (pre ds : List Char) (hne : ds ≠ [])
    (hdig : ∀ c ∈ ds, c.isDigit) (s : String)
    (hs : s.data.reverse = 'n' :: 'o' :: 's' :: 'j' :: '.' ::
      (ds.reverse ++ '_' :: pre)) :
    extract_sample_id s = Val.vInt (digitsToNat ds) := by
  have hrun : (ds.reverse ++ '_' :: pre).takeWhile (fun c => c.isDigit)
      = ds.reverse := by
    rw [takeWhile_append_all ds.reverse ('_' :: pre)
      (fun c hc => hdig c (List.mem_reverse.mp hc))]
    simp [List.takeWhile_cons]
  have hget : (ds.reverse ++ '_' :: pre).get? ds.reverse.length
      = some '_' := by
    rw [List.get?_append_right (Nat.le_refl _)]
    simp
  have hlen : 0 < ds.reverse.length := by
    simpa [List.length_reverse] using List.length_pos.mpr hne
  simp only [extract_sample_id, hs]
  simp only [List.take, List.drop, hrun]
  rw [List.reverse_reverse]
  split
  · split
    · rfl
    · rename_i hcond
      exact absurd ⟨hlen, hget⟩ hcond
  · rename_i hcond
    simp at hcond

/-- Claim C1 (amended): sample-id extraction returns the integer value of
the digit run exactly when the filename ends in `_<digits>.json` (the
digits must be directly preceded by an underscore); on every other
filename it returns the empty string. -/
theorem extract_sample_id_characterization :
    (∀ (stem : String) (ds : List Char), ds ≠ [] → (∀ c ∈ ds, c.isDigit) →
        extract_sample_id (stem ++ "_" ++ String.mk ds ++ ".json") =
          Val.vInt (digitsToNat ds)) ∧
    (∀ s : String, extract_sample_id s = Val.vStr "" ∨
        ∃ (stem : String) (ds : List Char), ds ≠ [] ∧ (∀ c ∈ ds, c.isDigit) ∧
          s = stem ++ "_" ++ String.mk ds ++ ".json" ∧
          extract_sample_id s = Val.vInt (digitsToNat ds)) := by
  constructor
  · intro stem ds hne hdig
    apply extract_sample_id_of_shape stem.data.reverse ds hne hdig
    simp [String.data_append]
  · intro s
    by_cases h1 : s.data.reverse.take 5 = ['n', 'o', 's', 'j', '.']
    · by_cases h2 :
        ((s.data.reverse.drop 5).takeWhile (fun c => c.isDigit)).length > 0 ∧
          (s.data.reverse.drop 5).get?
            ((s.data.reverse.drop 5).takeWhile (fun c => c.isDigit)).length =
            some '_'
      · right
        obtain ⟨hlen, hget⟩ := h2
        set rest := s.data.reverse.drop 5 with hrest
        set run := rest.takeWhile (fun c => c.isDigit) with hrunDef
        have hsplit : rest = run ++ rest.dropWhile (fun c => c.isDigit) :=
          (List.takeWhile_append_dropWhile ..).symm
        have hgetTail :
            (rest.dropWhile (fun c => c.isDigit)).get? 0 = some '_' := by
          have := hget
          rw [hsplit] at this
          rwa [List.get?_append_right (Nat.le_refl _), Nat.sub_self] at this
        obtain ⟨t2, ht2⟩ : ∃ t2,
            rest.dropWhile (fun c => c.isDigit) = '_' :: t2 := by
          cases hdw : rest.dropWhile (fun c => c.isDigit) with
          | nil => rw [hdw] at hgetTail; simp at hgetTail
          | cons c t =>
              rw [hdw] at hgetTail
              simp at hgetTail
              exact ⟨t, by rw [hgetTail]⟩
        have hrev : s.data.reverse =
            'n' :: 'o' :: 's' :: 'j' :: '.' :: (run ++ '_' :: t2) := by
          have := (List.take_append_drop 5 s.data.reverse).symm
          rw [h1, ← hrest] at this
          rw [this]
          rw [hsplit, ht2]
          simp
        have hdig' : ∀ c ∈ run.reverse, c.isDigit := fun c hc =>
          List.mem_takeWhile_imp (List.mem_reverse.mp hc)
        have hne' : run.reverse ≠ [] := by
          intro h
          rw [List.reverse_eq_nil_iff] at h
          rw [h] at hlen
          simp at hlen
        refine ⟨String.mk t2.reverse, run.reverse, hne', hdig', ?_, ?_⟩
        · apply String.ext
          have : s.data = (s.data.reverse).reverse :=
            (List.reverse_reverse _).symm
          rw [this, hrev]
          simp [String.data_append]
        · apply extract_sample_id_of_shape t2 run.reverse hne' hdig'
          rw [hrev, List.reverse_reverse]
      · left
        simp only [extract_sample_id]
        rw [if_pos h1, if_neg h2]
    · left
      simp only [extract_sample_id]
      rw [if_neg h1]

/-- Witness for the amended C1: `"john_1.json"` yields integer id `1`. -/
theorem extract_sample_id_characterization_witness :
    extract_sample_id ("john" ++ "_" ++ String.mk ['1'] ++ ".json") =
      Val.vInt (digitsToNat ['1']) :=
  extract_sample_id_characterization.1 "john" ['1'] (by decide) (by decide)

/-- Counterexample to C1 as stated: in `"a5.json"` the last digit run
directly before `.json` is `5`, yet extraction returns the empty string
(the regex also requires a preceding underscore), not the integer `5`. -/
theorem extract_sample_id_counterexample :
    extract_sample_id "a5.json" = Val.vStr "" ∧
      extract_sample_id "a5.json" ≠ Val.vInt 5 := by decide

/-- Whether a `Val` is an `int` (`true`) or a `str` (`false`). -/
def vKind : Val → Bool
  | Val.vInt _ => true
  | Val.vStr _ => false

/-- Python `<=` on two values of the same type; `False` across types. -/
def vle : Val → Val → Prop
  | Val.vInt a, Val.vInt b => a ≤ b
  | Val.vStr a, Val.vStr b => a ≤ b
  | _, _ => False

/-- A successful Python comparison means both operands have the same type. -/
theorem pyLt_ok_kind {a b : Val} {r : Bool} (h : pyLt a b = Except.ok r) :
    vKind a = vKind b := by
  cases a <;> cases b <;> simp_all [pyLt, vKind]

/-- A successful insertion permutes the inserted element into the list. -/
theorem insertSampleE_ok_perm {x : Sample} :
    ∀ {acc r : List Sample}, insertSampleE x acc = Except.ok r →
      r.Perm (x :: acc) := by
  intro acc
  induction acc with
  | nil => intro r h; simp [insertSampleE] at h; simp [← h]
  | cons y ys ih =>
      intro r h
      rw [insertSampleE] at h
      cases hp : pyLt x.sample_id y.sample_id with
      | error e => rw [hp] at h; exact absurd h (by simp)
      | ok b =>
          rw [hp] at h
          cases b with
          | true => simp at h; simp [← h]
          | false =>
              simp only [] at h
              cases hr : insertSampleE x ys with
              | error e => rw [hr] at h; exact absurd h (by simp)
              | ok r' =>
                  rw [hr] at h
                  simp at h
                  rw [← h]
                  exact ((ih hr).cons y).trans (List.Perm.swap x y ys)

/-- A successful insertion into a non-empty list compared the new id with
the head id, so they have the same type. -/
theorem insertSampleE_ok_head_kind {x y : Sample} {ys r : List Sample}
    (h : insertSampleE x (y :: ys) = Except.ok r) :
    vKind x.sample_id = vKind y.sample_id := by
  rw [insertSampleE] at h
  cases hp : pyLt x.sample_id y.sample_id with
  | error e => rw [hp] at h; exact absurd h (by simp)
  | ok b => exact pyLt_ok_kind hp

/-- All sample ids in the list have the same type. -/
def sameKindAll (l : List Sample) : Prop :=
  ∀ a ∈ l, ∀ b ∈ l, vKind a.sample_id = vKind b.sample_id

/-- Successful insertion preserves type-homogeneity of the id list. -/
theorem sameKindAll_insert {x : Sample} {acc r : List Sample}
    (hacc : sameKindAll acc) (h : insertSampleE x acc = Except.ok r) :
    sameKindAll r := by
  have hperm := insertSampleE_ok_perm h
  have hmem : ∀ a ∈ r, a = x ∨ a ∈ acc := by
    intro a ha
    have := hperm.mem_iff.mp ha
    simpa using this
  cases acc with
  | nil =>
      intro a ha b hb
      rcases hmem a ha with rfl | h' <;> rcases hmem b hb with rfl | h'' <;>
        simp_all
  | cons y ys =>
      have hxy := insertSampleE_ok_head_kind h
      have hx : ∀ a, a = x ∨ a ∈ y :: ys → vKind a.sample_id = vKind y.sample_id := by
        intro a ha
        rcases ha with rfl | h'
        · exact hxy
        · exact hacc a h' y (by simp)
      intro a ha b hb
      rw [hx a (hmem a ha), hx b (hmem b hb)]

/-- A successful insertion pass permutes the processed elements into the
accumulator. -/
theorem sortSamplesAux_ok_perm :
    ∀ (l acc : List Sample) {r : List Sample},
      sortSamplesAux l acc = Except.ok r → r.Perm (l ++ acc) := by
  intro l
  induction l with
  | nil => intro acc r h; simp [sortSamplesAux] at h; simp [← h]
  | cons x xs ih =>
      intro acc r h
      rw [sortSamplesAux] at h
      cases h1 : insertSampleE x acc with
      | error e => rw [h1] at h; exact absurd h (by simp)
      | ok acc' =>
          rw [h1] at h
          have hperm := ih acc' h
          have h2 : (xs ++ acc').Perm (xs ++ x :: acc) :=
            (insertSampleE_ok_perm h1).append_left xs
          exact (hperm.trans h2).trans List.perm_middle

/-- A successful insertion pass preserves type-homogeneity. -/
theorem sortSamplesAux_ok_sameKind :
    ∀ (l acc : List Sample) {r : List Sample}, sameKindAll acc →
      sortSamplesAux l acc = Except.ok r → sameKindAll r := by
  intro l
  induction l with
  | nil => intro acc r hacc h; simp [sortSamplesAux] at h; rwa [← h]
  | cons x xs ih =>
      intro acc r hacc h
      rw [sortSamplesAux] at h
      cases h1 : insertSampleE x acc with
      | error e => rw [h1] at h; exact absurd h (by simp)
      | ok acc' =>
          rw [h1] at h
          exact ih acc' (sameKindAll_insert hacc h1) h

/-- If the sample sort succeeds, the sample ids were type-homogeneous. -/
theorem sortSamplesE_ok_sameKind {l r : List Sample}
    (h : sortSamplesE l = Except.ok r) : sameKindAll l := by
  have hr := sortSamplesAux_ok_sameKind l [] (by intro a ha; simp at ha) h
  have hperm := sortSamplesAux_ok_perm l [] h
  intro a ha b hb
  exact hr a (hperm.mem_iff.mpr (by simpa using ha))
    b (hperm.mem_iff.mpr (by simpa using hb))

/-- Inserting an integer-id sample into a sorted list of integer-id samples
succeeds and keeps the list sorted. -/
theorem insertSampleE_int_ok {x : Sample} (hx : ∃ n, x.sample_id = Val.vInt n) :
    ∀ (acc : List Sample), (∀ y ∈ acc, ∃ n, y.sample_id = Val.vInt n) →
      acc.Pairwise (fun u v => vle u.sample_id v.sample_id) →
      ∃ r, insertSampleE x acc = Except.ok r ∧ r.Perm (x :: acc) ∧
        r.Pairwise (fun u v => vle u.sample_id v.sample_id) ∧
        (∀ y ∈ r, ∃ n, y.sample_id = Val.vInt n) := by
  intro acc
  induction acc with
  | nil =>
      intro _ _
      exact ⟨[x], rfl, List.Perm.refl _, by simp, by simpa using hx⟩
  | cons y ys ih =>
      intro hints hsorted
      obtain ⟨a, ha⟩ := hx
      obtain ⟨b, hb⟩ := hints y (by simp)
      have hp : pyLt x.sample_id y.sample_id = Except.ok (decide (a < b)) := by
        rw [ha, hb]; rfl
      by_cases hab : a < b
      · refine ⟨x :: y :: ys, ?_, List.Perm.refl _, ?_, ?_⟩
        · simp only [insertSampleE, hp, decide_eq_true hab]
        · refine List.Pairwise.cons ?_ hsorted
          intro z hz
          rcases List.mem_cons.mp hz with rfl | hz
          · rw [ha, hb]; exact Nat.le_of_lt hab
          · obtain ⟨c, hc⟩ := hints z (by simp [hz])
            have hbz : vle y.sample_id z.sample_id :=
              (List.pairwise_cons.mp hsorted).1 z hz
            rw [hb, hc] at hbz
            rw [ha, hc]
            exact le_trans (Nat.le_of_lt hab) hbz
        · intro z hz
          rcases List.mem_cons.mp hz with rfl | hz
          · exact ⟨a, ha⟩
          · exact hints z hz
      · obtain ⟨r', hok, hperm, hsorted', hints'⟩ :=
          ih (fun z hz => hints z (by simp [hz]))
            (List.pairwise_cons.mp hsorted).2
        refine ⟨y :: r', ?_, ?_, ?_, ?_⟩
        · simp only [insertSampleE, hp, decide_eq_false hab, hok]
        · exact (hperm.cons y).trans (List.Perm.swap x y ys)
        · refine List.Pairwise.cons ?_ hsorted'
          intro z hz
          rcases List.mem_cons.mp (hperm.mem_iff.mp hz) with rfl | hz'
          · rw [hb, ha]; exact Nat.le_of_not_lt hab
          · exact (List.pairwise_cons.mp hsorted).1 z hz'
        · intro z hz
          rcases List.mem_cons.mp hz with rfl | hz
          · exact ⟨b, hb⟩
          · exact hints' z hz

/-- An insertion pass over integer-id samples succeeds and sorts. -/
theorem sortSamplesAux_int_ok :
    ∀ (l : List Sample), (∀ s ∈ l, ∃ n, s.sample_id = Val.vInt n) →
      ∀ (acc : List Sample), (∀ y ∈ acc, ∃ n, y.sample_id = Val.vInt n) →
        acc.Pairwise (fun u v => vle u.sample_id v.sample_id) →
        ∃ r, sortSamplesAux l acc = Except.ok r ∧ r.Perm (l ++ acc) ∧
          r.Pairwise (fun u v => vle u.sample_id v.sample_id) := by
  intro l
  induction l with
  | nil =>
      intro _ acc _ hsorted
      exact ⟨acc, rfl, by simp, hsorted⟩
  | cons x xs ih =>
      intro hl acc hacc hsorted
      obtain ⟨acc', hok, hperm, hsorted', hints'⟩ :=
        insertSampleE_int_ok (hl x (by simp)) acc hacc hsorted
      obtain ⟨r, hokr, hpermr, hsortedr⟩ :=
        ih (fun s hs => hl s (by simp [hs])) acc' hints' hsorted'
      refine ⟨r, ?_, ?_, hsortedr⟩
      · rw [sortSamplesAux, hok]
        exact hokr
      · exact (hpermr.trans (hperm.append_left xs)).trans List.perm_middle

/-- Claim C2 (amended): when every sample id in the group is an integer the
sort succeeds and returns the samples in ascending id order; but a group
mixing an integer id with a string (empty) id makes the comparison raise
`TypeError`, so the sort fails rather than treating the empty id as `0`. -/
theorem sortSamplesE_characterization :
    (∀ l : List Sample, (∀ s ∈ l, ∃ n, s.sample_id = Val.vInt n) →
        ∃ r, sortSamplesE l = Except.ok r ∧ r.Perm l ∧
          r.Pairwise (fun u v => vle u.sample_id v.sample_id)) ∧
    (∀ l : List Sample, (∃ a ∈ l, vKind a.sample_id = true) →
        (∃ b ∈ l, vKind b.sample_id = false) →
        sortSamplesE l = Except.error ()) := by
  constructor
  · intro l hl
    obtain ⟨r, hok, hperm, hsorted⟩ :=
      sortSamplesAux_int_ok l hl [] (by intro y hy; simp at hy) (by simp)
    exact ⟨r, hok, by simpa using hperm, hsorted⟩
  · intro l ⟨a, ha, hka⟩ ⟨b, hb, hkb⟩
    cases h : sortSamplesE l with
    | ok r =>
        have := sortSamplesE_ok_sameKind h a ha b hb
        rw [hka, hkb] at this
        exact absurd this (by simp)
    | error e => cases e; rfl

/-- Witness for the amended C2: two integer-id samples sort successfully. -/
theorem sortSamplesE_characterization_witness :
    ∃ r, sortSamplesE [⟨Val.vInt 2, some [], "b_2.json"⟩,
        ⟨Val.vInt 1, some [], "b_1.json"⟩] = Except.ok r ∧
      r.Perm [⟨Val.vInt 2, some [], "b_2.json"⟩,
        ⟨Val.vInt 1, some [], "b_1.json"⟩] ∧
      r.Pairwise (fun u v => vle u.sample_id v.sample_id) :=
  sortSamplesE_characterization.1
    [⟨Val.vInt 2, some [], "b_2.json"⟩, ⟨Val.vInt 1, some [], "b_1.json"⟩]
    (by
      intro s hs
      simp only [List.mem_cons, List.mem_singleton] at hs
      rcases hs with rfl | rfl | h
      · exact ⟨2, rfl⟩
      · exact ⟨1, rfl⟩
      · simp at h)

/-- Counterexample to C2 as stated: a group holding one sample with an
empty (string) id and one with integer id `1` makes the sort raise, not
succeed with the empty id ordered first. -/
theorem sortSamplesE_counterexample :
    sortSamplesE [⟨Val.vStr "", some [], "alias.json"⟩,
      ⟨Val.vInt 1, some [], "alias_1.json"⟩] = Except.error () := rfl

/-- When every row key is a fieldname, converting the rows succeeds and
substitutes `""` for absent columns. -/
theorem mapDictRows_ok (fieldnames : List String) :
    ∀ rows : List Row, (∀ row ∈ rows, ∀ p ∈ row, p.1 ∈ fieldnames) →
      mapDictRows fieldnames rows = Except.ok (rows.map (fun row =>
        fieldnames.map (fun f =>
          match dget row f with
          | some v => valToString v
          | none => ""))) := by
  intro rows
  induction rows with
  | nil => intro _; rfl
  | cons row rest ih =>
      intro h
      have hrow : (row.all (fun p => p.1 ∈ fieldnames)) = true := by
        rw [List.all_eq_true]
        intro p hp
        simpa using h row (by simp) p hp
      rw [mapDictRows, dict_to_list, if_pos hrow,
        ih (fun r hr p hp => h r (by simp [hr]) p hp)]
      rfl

/-- A row with a key outside the fieldnames makes the conversion fail. -/
theorem mapDictRows_err (fieldnames : List String) :
    ∀ rows : List Row, (∃ row ∈ rows, ∃ p ∈ row, p.1 ∉ fieldnames) →
      mapDictRows fieldnames rows = Except.error () := by
  intro rows
  induction rows with
  | nil => intro ⟨row, hrow, _⟩; simp at hrow
  | cons row rest ih =>
      intro ⟨bad, hbad, p, hp, hout⟩
      rcases List.mem_cons.mp hbad with rfl | hbad'
      · have hrow : (bad.all (fun q => q.1 ∈ fieldnames)) ≠ true := by
          intro hall
          rw [List.all_eq_true] at hall
          exact hout (by simpa using hall p hp)
        rw [mapDictRows, dict_to_list, if_neg hrow]
      · rw [mapDictRows]
        cases hd : dict_to_list fieldnames row with
        | error e => cases e; rfl
        | ok line => rw [ih ⟨bad, hbad', p, hp, hout⟩]

/-- Claim C3 (amended): the CSV writer emits the header and one line per
row, substituting the empty string for every column absent from a row's
mapping; but a row mapping holding a key outside the column list makes the
writer raise `ValueError` (`csv.DictWriter`'s default is
`extrasaction='raise'`), rather than being ignored. -/
theorem write_csv_characterization :
    (∀ (fieldnames : List String) (rows : List Row),
        (∀ row ∈ rows, ∀ p ∈ row, p.1 ∈ fieldnames) →
        write_csv fieldnames rows = Except.ok (fieldnames :: rows.map (fun row =>
          fieldnames.map (fun f =>
            match dget row f with
            | some v => valToString v
            | none => "")))) ∧
    (∀ (fieldnames : List String) (rows : List Row),
        (∃ row ∈ rows, ∃ p ∈ row, p.1 ∉ fieldnames) →
        write_csv fieldnames rows = Except.error ()) := by
  constructor
  · intro fieldnames rows h
    rw [write_csv, mapDictRows_ok fieldnames rows h]
  · intro fieldnames rows h
    rw [write_csv, mapDictRows_err fieldnames rows h]

/-- Witness for the amended C3: a row carrying only the first of two
columns gets the second filled with the empty string. -/
theorem write_csv_characterization_witness :
    write_csv ["a", "b"] [[("a", Val.vStr "x")]] =
      Except.ok (["a", "b"] :: [[("a", Val.vStr "x")]].map (fun row =>
        ["a", "b"].map (fun f =>
          match dget row f with
          | some v => valToString v
          | none => ""))) :=
  write_csv_characterization.1 ["a", "b"] [[("a", Val.vStr "x")]]
    (by intro row hrow p hp; simp at hrow; simp [hrow] at hp; simp [hp])

/-- Counterexample to C3 as stated: a row with the unexpected key `"b"`
outside the column list `["a"]` makes the writer fail instead of being
tolerated. -/
theorem write_csv_counterexample :
    write_csv ["a"] [[("b", Val.vStr "x")]] = Except.error () := rfl

/-- Looking up in a one-longer dict checks the head binding first. -/
theorem dget_cons (k' : String) (v' : Val) (rest : Row) (k : String) :
    dget ((k', v') :: rest) k = if k' = k then some v' else dget rest k := by
  by_cases h : k' = k <;> simp [dget, List.find?_cons, h]

/-- Updating a key and reading it back gives the new value. -/
theorem dget_dset_self (row : Row) (k : String) (v : Val) :
    dget (dset row k v) k = some v := by
  induction row with
  | nil => simp [dset, dget_cons]
  | cons p rest ih =>
      obtain ⟨k', v'⟩ := p
      by_cases h : k' = k <;> simp [dset, h, dget_cons, ih]

/-- Updating one key leaves every other key's value unchanged. -/
theorem dget_dset_ne (row : Row) (k : String) (v : Val) (k' : String)
    (h : k' ≠ k) : dget (dset row k v) k' = dget row k' := by
  induction row with
  | nil => simp [dset, dget_cons, Ne.symm h]
  | cons p rest ih =>
      obtain ⟨k₀, v₀⟩ := p
      by_cases h0 : k₀ = k
      · subst h0
        simp [dset, dget_cons, Ne.symm h]
      · simp [dset, h0, dget_cons, ih]

/-- Lookup distributes over dict concatenation, first dict first. -/
theorem dget_append (row₁ row₂ : Row) (k : String) :
    dget (row₁ ++ row₂) k =
      match dget row₁ k with
      | some v => some v
      | none => dget row₂ k := by
  induction row₁ with
  | nil => simp [dget]
  | cons p rest ih =>
      obtain ⟨k₀, v₀⟩ := p
      by_cases h : k₀ = k <;> simp [dget_cons, h, ih]

/-- Folding an entry whose time key differs from `t` leaves the cell at `t`
unchanged. -/
theorem dget_addEntry_ne {e : Entry} {t : String} (h : timeKey e ≠ t)
    (row : Row) : dget (addEntry row e) t = dget row t := by
  unfold addEntry
  cases hg : dget row (timeKey e) with
  | some v =>
      by_cases htr : valTruthy v <;>
        simp [htr, dget_dset_ne _ _ _ _ (Ne.symm h)]
  | none => simp [dget_dset_ne _ _ _ _ (Ne.symm h)]

/-- The formatted cells of the entries of `es` whose time key is `t`. -/
def pairsL (es : List Entry) (t : String) : List String :=
  (es.filter (fun e => timeKey e = t)).map formatCell

/-- A string with a non-empty left part is non-empty. -/
theorem append_ne_empty_left {a : String} (b : String) (h : a ≠ "") :
    a ++ b ≠ "" := by
  intro hab
  apply h
  have hd := congrArg String.data hab
  rw [String.data_append] at hd
  have := (List.append_eq_nil.mp hd).1
  apply String.ext
  simpa using this

/-- A formatted `(location, activity)` cell is never the empty string. -/
theorem formatCell_ne_empty (e : Entry) : formatCell e ≠ "" := by
  unfold formatCell
  apply append_ne_empty_left
  apply append_ne_empty_left
  apply append_ne_empty_left
  apply append_ne_empty_left
  decide

/-- Prepending an already-joined piece associates with `joinBar`. -/
theorem joinBar_cons_cons (c p : String) (ps : List String) :
    joinBar ((c ++ " | " ++ p) :: ps) = c ++ " | " ++ joinBar (p :: ps) := by
  cases ps with
  | nil => rfl
  | cons q qs =>
      show (c ++ " | " ++ p) ++ " | " ++ joinBar (q :: qs) =
        c ++ " | " ++ (p ++ " | " ++ joinBar (q :: qs))
      simp [String.append_assoc]

/-- Folding entries onto a row whose cell at `t` already holds the non-empty
string `c` appends the matching cells after `c`, `" | "`-separated. -/
theorem dget_foldl_addEntry_some :
    ∀ (es : List Entry) (row : Row) (t c : String), c ≠ "" →
      dget row t = some (Val.vStr c) →
      dget (es.foldl addEntry row) t =
        some (Val.vStr (joinBar (c :: pairsL es t))) := by
  intro es
  induction es with
  | nil =>
      intro row t c _ h
      simpa [pairsL, joinBar] using h
  | cons e es ih =>
      intro row t c hc h
      simp only [List.foldl_cons]
      by_cases ht : timeKey e = t
      · have h1 : dget (addEntry row e) t =
            some (Val.vStr (c ++ " | " ++ formatCell e)) := by
          unfold addEntry
          rw [ht, h]
          have htr : valTruthy (Val.vStr c) = true := by
            simp [valTruthy, hc]
          simp [htr, valToString, dget_dset_self]
        rw [ih (addEntry row e) t _
            (append_ne_empty_left _ (append_ne_empty_left _ hc)) h1]
        have hp : pairsL (e :: es) t = formatCell e :: pairsL es t := by
          simp [pairsL, List.filter_cons, ht]
        rw [hp, joinBar_cons_cons]
        rfl
      · have h1 : dget (addEntry row e) t = some (Val.vStr c) :=
          (dget_addEntry_ne ht row).trans h
        rw [ih (addEntry row e) t c hc h1]
        have hp : pairsL (e :: es) t = pairsL es t := by
          simp [pairsL, List.filter_cons, ht]
        rw [hp]

/-- Folding entries onto a row with no cell at `t` produces the
`" | "`-join of the matching cells, or still no cell when none match. -/
theorem dget_foldl_addEntry_none :
    ∀ (es : List Entry) (row : Row) (t : String),
      dget row t = none →
      dget (es.foldl addEntry row) t =
        if pairsL es t = [] then none
        else some (Val.vStr (joinBar (pairsL es t))) := by
  intro es
  induction es with
  | nil =>
      intro row t h
      simpa [pairsL] using h
  | cons e es ih =>
      intro row t h
      simp only [List.foldl_cons]
      by_cases ht : timeKey e = t
      · have h1 : dget (addEntry row e) t =
            some (Val.vStr (formatCell e)) := by
          unfold addEntry
          rw [ht, h, dget_dset_self]
        rw [dget_foldl_addEntry_some es _ t (formatCell e)
          (formatCell_ne_empty e) h1]
        have hp : pairsL (e :: es) t = formatCell e :: pairsL es t := by
          simp [pairsL, List.filter_cons, ht]
        rw [hp, if_neg (by simp)]
      · have h1 : dget (addEntry row e) t = none :=
          (dget_addEntry_ne ht row).trans h
        rw [ih (addEntry row e) t h1]
        have hp : pairsL (e :: es) t = pairsL es t := by
          simp [pairsL, List.filter_cons, ht]
        rw [hp]

/-- `setdefault`-ing every time column fills exactly the missing cells
with the empty string. -/
theorem dget_foldl_dsetdefault :
    ∀ (times : List String) (row : Row) (t : String),
      dget (times.foldl (fun r t' => dsetdefault r t' (Val.vStr "")) row) t =
        match dget row t with
        | some v => some v
        | none => if t ∈ times then some (Val.vStr "") else none := by
  intro times
  induction times with
  | nil =>
      intro row t
      cases h : dget row t <;> simp [h]
  | cons t' ts ih =>
      intro row t
      simp only [List.foldl_cons]
      rw [ih]
      cases h' : dget row t' with
      | some v =>
          have hrow : dsetdefault row t' (Val.vStr "") = row := by
            simp [dsetdefault, h']
          rw [hrow]
          cases h : dget row t with
          | some v2 => simp [h]
          | none =>
              have hne : t ≠ t' := by
                intro heq
                rw [heq, h'] at h
                exact Option.noConfusion h
              simp [h, List.mem_cons, hne]
      | none =>
          have hrow : dsetdefault row t' (Val.vStr "") =
              row ++ [(t', Val.vStr "")] := by
            simp [dsetdefault, h']
          rw [hrow, dget_append]
          cases h : dget row t with
          | some v2 => simp [h]
          | none =>
              by_cases heq : t = t'
              · subst heq
                simp [h, dget_cons]
              · simp [h, dget, dget_cons, Ne.symm heq, List.mem_cons, heq]

/-- Whether the separator `" | "` occurs anywhere in a character list. -/
def hasSepChars : List Char → Bool
  | c :: d :: e :: rest =>
      (c = ' ' && d = '|' && e = ' ') || hasSepChars (d :: e :: rest)
  | _ => false

/-- Whether a character list ends with `' '` followed by `'|'` (the prefix
of the separator that can merge with a following separator). -/
def endsWithSpaceBar (l : List Char) : Bool :=
  match l.reverse with
  | d :: c :: _ => c = ' ' && d = '|'
  | _ => false

/-- Dropping the head of a list of length at least two does not change
whether it ends with `" |"`. -/
theorem endsWithSpaceBar_cons (c : Char) (p : List Char) (h : 2 ≤ p.length) :
    endsWithSpaceBar (c :: p) = endsWithSpaceBar p := by
  obtain ⟨a, t, ht⟩ : ∃ a t, p.reverse = a :: t := by
    cases hr : p.reverse with
    | nil =>
        rw [List.reverse_eq_nil_iff] at hr
        subst hr
        simp at h
    | cons a t => exact ⟨a, t, rfl⟩
  obtain ⟨b, t', rfl⟩ : ∃ b t', t = b :: t' := by
    cases t with
    | nil =>
        exfalso
        have := congrArg List.length ht
        simp at this
        omega
    | cons b t' => exact ⟨b, t', rfl⟩
  simp [endsWithSpaceBar, List.reverse_cons, ht]

/-- A list ending with `')'` does not end with `" |"`. -/
theorem endsWithSpaceBar_append_paren (l : List Char) :
    endsWithSpaceBar (l ++ [')']) = false := by
  cases hr : l.reverse with
  | nil => simp [endsWithSpaceBar, List.reverse_append, hr]
  | cons c r => simp [endsWithSpaceBar, List.reverse_append, hr]

/-- A list without the separator splits into itself alone. -/
theorem splitBarChars_no_sep :
    ∀ l : List Char, hasSepChars l = false → splitBarChars l = [l] := by
  intro l
  induction l with
  | nil => intro _; rfl
  | cons c rest ih =>
      intro h
      match rest with
      | [] => rfl
      | [d] => rfl
      | d :: e :: r =>
          rw [hasSepChars] at h
          simp only [Bool.or_eq_false_iff, Bool.and_eq_false_iff] at h
          rw [splitBarChars, if_neg, ih h.2]
          intro ⟨hc, hd, he⟩
          rcases h.1 with h' | h'
          · rcases h' with h'' | h'' <;> simp [hc, hd] at h''
          · simp [he] at h'

/-- Splitting recognises the separator placed after a clean piece: clean
means the piece has no internal separator and does not end in `" |"` (which
could capture the first character of the trailing separator). -/
theorem splitBarChars_append_sep :
    ∀ (p q : List Char), hasSepChars p = false → endsWithSpaceBar p = false →
      splitBarChars (p ++ ' ' :: '|' :: ' ' :: q) = p :: splitBarChars q := by
  intro p
  induction p with
  | nil =>
      intro q _ _
      rw [List.nil_append, splitBarChars, if_pos ⟨rfl, rfl, rfl⟩]
  | cons c p' ih =>
      intro q h hends
      match p' with
      | [] =>
          rw [List.cons_append, List.nil_append, splitBarChars, if_neg]
          · rw [splitBarChars, if_pos ⟨rfl, rfl, rfl⟩]
          · intro ⟨_, hd, _⟩
            exact absurd hd (by decide)
      | [d] =>
          rw [List.cons_append, List.cons_append, List.nil_append,
            splitBarChars, if_neg]
          · have := ih q rfl rfl
            rw [List.cons_append, List.nil_append] at this
            rw [this]
          · intro ⟨hc, hd, _⟩
            simp [endsWithSpaceBar, hc, hd] at hends
      | d :: e :: p'' =>
          rw [hasSepChars] at h
          simp only [Bool.or_eq_false_iff, Bool.and_eq_false_iff] at h
          have hends' : endsWithSpaceBar (d :: e :: p'') = false := by
            rwa [endsWithSpaceBar_cons c (d :: e :: p'') (by simp)] at hends
          have hih := ih q h.2 hends'
          simp only [List.cons_append] at hih ⊢
          rw [splitBarChars, if_neg]
          · rw [hih]
          · intro ⟨hc, hd, he⟩
            rcases h.1 with h' | h'
            · rcases h' with h'' | h'' <;> simp [hc, hd] at h''
            · simp [he] at h'

/-- Rebuilding a string from its characters. -/
theorem string_mk_data (s : String) : String.mk s.data = s := by
  cases s
  rfl

/-- Splitting on `" | "` undoes `joinBar` for a non-empty list of clean
pieces. -/
theorem splitBar_joinBar :
    ∀ parts : List String, parts ≠ [] →
      (∀ p ∈ parts, hasSepChars p.data = false ∧
        endsWithSpaceBar p.data = false) →
      splitBar (joinBar parts) = parts := by
  intro parts
  induction parts with
  | nil => intro h _; exact absurd rfl h
  | cons p rest ih =>
      intro _ h
      cases rest with
      | nil =>
          show (splitBarChars (joinBar [p]).data).map (fun cs => String.mk cs)
            = [p]
          rw [show joinBar [p] = p from rfl,
            splitBarChars_no_sep p.data (h p (by simp)).1]
          simp [string_mk_data]
      | cons p' rest' =>
          have hjoin : joinBar (p :: p' :: rest') =
              p ++ " | " ++ joinBar (p' :: rest') := rfl
          show (splitBarChars (joinBar (p :: p' :: rest')).data).map
              (fun cs => String.mk cs) = p :: p' :: rest'
          rw [hjoin]
          have hdata : (p ++ " | " ++ joinBar (p' :: rest')).data =
              p.data ++ ' ' :: '|' :: ' ' :: (joinBar (p' :: rest')).data := by
            rw [String.data_append, String.data_append, List.append_assoc]
            rfl
          rw [hdata, splitBarChars_append_sep p.data _
            (h p (by simp)).1 (h p (by simp)).2]
          have := ih (by simp) (fun q hq => h q (by simp [hq]))
          rw [List.map_cons, string_mk_data]
          rw [splitBar] at this
          rw [this]

/-- Membership in the inner time-collection fold. -/
theorem mem_collect_inner :
    ∀ (es : List Entry) (acc : List String) (t : String),
      t ∈ es.foldl
        (fun acc e => if timeKey e ∈ acc then acc else acc ++ [timeKey e])
        acc ↔ t ∈ acc ∨ ∃ e ∈ es, timeKey e = t := by
  intro es
  induction es with
  | nil => simp
  | cons e es ih =>
      intro acc t
      simp only [List.foldl_cons]
      by_cases he : timeKey e ∈ acc
      · rw [if_pos he, ih]
        constructor
        · rintro (h | h)
          · exact Or.inl h
          · obtain ⟨e', he', ht⟩ := h
            exact Or.inr ⟨e', by simp [he'], ht⟩
        · rintro (h | ⟨e', he', rfl⟩)
          · exact Or.inl h
          · rcases List.mem_cons.mp he' with rfl | h'
            · exact Or.inl he
            · exact Or.inr ⟨e', h', rfl⟩
      · rw [if_neg he, ih]
        constructor
        · rintro (h | h)
          · rcases List.mem_append.mp h with h' | h'
            · exact Or.inl h'
            · simp only [List.mem_singleton] at h'
              exact Or.inr ⟨e, by simp, h'.symm⟩
          · obtain ⟨e', he', ht⟩ := h
            exact Or.inr ⟨e', by simp [he'], ht⟩
        · rintro (h | ⟨e', he', rfl⟩)
          · exact Or.inl (List.mem_append.mpr (Or.inl h))
          · rcases List.mem_cons.mp he' with rfl | h'
            · exact Or.inl (List.mem_append.mpr (Or.inr (by simp)))
            · exact Or.inr ⟨e', h', rfl⟩

/-- Membership in `collectTimes`: a time key appears iff some entry of some
sample carries it. -/
theorem mem_collectTimes :
    ∀ (samples : List Sample) (acc : List String) (t : String),
      t ∈ samples.foldl
        (fun acc s => (stmtsOf s).foldl
          (fun acc e => if timeKey e ∈ acc then acc else acc ++ [timeKey e])
          acc)
        acc ↔ t ∈ acc ∨ ∃ s ∈ samples, ∃ e ∈ stmtsOf s, timeKey e = t := by
  intro samples
  induction samples with
  | nil => simp
  | cons s samples ih =>
      intro acc t
      simp only [List.foldl_cons]
      rw [ih, mem_collect_inner]
      constructor
      · rintro ((h | h) | h)
        · exact Or.inl h
        · obtain ⟨e, he, ht⟩ := h
          exact Or.inr ⟨s, by simp, e, he, ht⟩
        · obtain ⟨s', hs', rest⟩ := h
          exact Or.inr ⟨s', by simp [hs'], rest⟩
      · rintro (h | ⟨s', hs', e, he, ht⟩)
        · exact Or.inl (Or.inl h)
        · rcases List.mem_cons.mp hs' with rfl | h'
          · exact Or.inl (Or.inr ⟨e, he, ht⟩)
          · exact Or.inr ⟨s', h', e, he, ht⟩

/-- The inner time-collection fold keeps the accumulator duplicate-free. -/
theorem nodup_collect_inner :
    ∀ (es : List Entry) (acc : List String), acc.Nodup →
      (es.foldl
        (fun acc e => if timeKey e ∈ acc then acc else acc ++ [timeKey e])
        acc).Nodup := by
  intro es
  induction es with
  | nil => intro acc h; simpa using h
  | cons e es ih =>
      intro acc h
      simp only [List.foldl_cons]
      by_cases he : timeKey e ∈ acc
      · rw [if_pos he]; exact ih acc h
      · rw [if_neg he]
        refine ih _ ?_
        simp [List.nodup_append, h, he]

/-- `collectTimes` is duplicate-free. -/
theorem nodup_collectTimes :
    ∀ (samples : List Sample) (acc : List String), acc.Nodup →
      (samples.foldl
        (fun acc s => (stmtsOf s).foldl
          (fun acc e => if timeKey e ∈ acc then acc else acc ++ [timeKey e])
          acc)
        acc).Nodup := by
  intro samples
  induction samples with
  | nil => intro acc h; simpa using h
  | cons s samples ih =>
      intro acc h
      simp only [List.foldl_cons]
      exact ih _ (nodup_collect_inner (stmtsOf s) acc h)

/-- Key-based insertion permutes the new element into the list. -/
theorem insertByKey_perm {α : Type} (key : α → Nat) (x : α) :
    ∀ l : List α, (insertByKey key x l).Perm (x :: l) := by
  intro l
  induction l with
  | nil => exact List.Perm.refl _
  | cons y ys ih =>
      rw [insertByKey]
      by_cases h : key x < key y
      · rw [if_pos h]
      · rw [if_neg h]
        exact (ih.cons y).trans (List.Perm.swap x y ys)

/-- Key-based insertion preserves sortedness by the key. -/
theorem insertByKey_sorted {α : Type} (key : α → Nat) (x : α) :
    ∀ l : List α, l.Pairwise (fun a b => key a ≤ key b) →
      (insertByKey key x l).Pairwise (fun a b => key a ≤ key b) := by
  intro l
  induction l with
  | nil => intro _; simp [insertByKey]
  | cons y ys ih =>
      intro h
      rw [insertByKey]
      by_cases hlt : key x < key y
      · rw [if_pos hlt]
        refine List.Pairwise.cons ?_ h
        intro z hz
        rcases List.mem_cons.mp hz with rfl | hz'
        · exact Nat.le_of_lt hlt
        · exact le_trans (Nat.le_of_lt hlt)
            ((List.pairwise_cons.mp h).1 z hz')
      · rw [if_neg hlt]
        refine List.Pairwise.cons ?_ (ih (List.pairwise_cons.mp h).2)
        intro z hz
        rcases List.mem_cons.mp
            ((insertByKey_perm key x ys).mem_iff.mp hz) with rfl | hz'
        · exact Nat.le_of_not_lt hlt
        · exact (List.pairwise_cons.mp h).1 z hz'

/-- The insertion sort permutes its input. -/
theorem sortByKey_perm_aux {α : Type} (key : α → Nat) :
    ∀ (l acc : List α),
      (l.foldl (fun acc x => insertByKey key x acc) acc).Perm (l ++ acc) := by
  intro l
  induction l with
  | nil => intro acc; simp
  | cons x xs ih =>
      intro acc
      simp only [List.foldl_cons]
      exact ((ih _).trans
        ((insertByKey_perm key x acc).append_left xs)).trans List.perm_middle

/-- The insertion sort sorts by the key. -/
theorem sortByKey_sorted_aux {α : Type} (key : α → Nat) :
    ∀ (l acc : List α), acc.Pairwise (fun a b => key a ≤ key b) →
      (l.foldl (fun acc x => insertByKey key x acc) acc).Pairwise
        (fun a b => key a ≤ key b) := by
  intro l
  induction l with
  | nil => intro acc h; simpa using h
  | cons x xs ih =>
      intro acc h
      simp only [List.foldl_cons]
      exact ih _ (insertByKey_sorted key x acc h)

/-- The wide pivot's time columns are exactly the distinct time keys of the
alias's samples. -/
theorem mem_sortedTimes (samples : List Sample) (t : String) :
    t ∈ sortedTimes samples ↔
      ∃ s ∈ samples, ∃ e ∈ stmtsOf s, timeKey e = t := by
  rw [sortedTimes, sortByKey,
    (sortByKey_perm_aux parse_time_to_minutes _ _).mem_iff]
  simpa using mem_collectTimes samples [] t

/-- The wide pivot's time columns are duplicate-free. -/
theorem nodup_sortedTimes (samples : List Sample) :
    (sortedTimes samples).Nodup := by
  have h1 : (collectTimes samples).Nodup :=
    nodup_collectTimes samples [] List.nodup_nil
  have h2 :=
    (sortByKey_perm_aux parse_time_to_minutes (collectTimes samples) []).symm
  have h3 : (collectTimes samples ++ []).Nodup := by simpa using h1
  exact h2.nodup h3

/-- The wide pivot's time columns are sorted by parsed minutes. -/
theorem sorted_sortedTimes (samples : List Sample) :
    (sortedTimes samples).Pairwise
      (fun a b => parse_time_to_minutes a ≤ parse_time_to_minutes b) :=
  sortByKey_sorted_aux parse_time_to_minutes _ [] (by simp)

/-- Master cell lemma: for a time column other than the id column, the cell
of a sample's wide row is exactly the `" | "`-join of the formatted
`(location, activity)` pairs of that sample's entries at that time. -/
theorem cell_eq_joinBar (samples : List Sample) (s : Sample) (t : String)
    (ht : t ∈ sortedTimes samples) (hne : t ≠ "alias_sample_id") :
    dget (buildRow (sortedTimes samples) s) t =
      some (Val.vStr (joinBar (pairsAt s t))) := by
  unfold buildRow
  have h0 : dget [("alias_sample_id", s.sample_id)] t = none := by
    simp [dget_cons, dget, Ne.symm hne]
  have hpairs : pairsAt s t = pairsL (stmtsOf s) t := rfl
  rw [dget_foldl_dsetdefault, dget_foldl_addEntry_none (stmtsOf s) _ t h0]
  by_cases hp : pairsL (stmtsOf s) t = []
  · rw [if_pos hp]
    simp [ht, hpairs, hp, joinBar]
  · rw [if_neg hp, hpairs]

/-- A formatted `(location, activity)` cell never ends with `" |"`. -/
theorem endsWithSpaceBar_formatCell (e : Entry) :
    endsWithSpaceBar (formatCell e).data = false := by
  have hd : (formatCell e).data =
      ("(" ++ e.location.getD "" ++ ", " ++ e.activity.getD "").data ++ [')'] := by
    rw [formatCell, String.data_append]
  rw [hd]
  exact endsWithSpaceBar_append_paren _

/-- Claim C5 (amended): the wide table's time columns are exactly the
distinct `time` values over all statement entries of the alias's samples,
ordered by parsed minutes since midnight; and for every time column other
than the literal string `"alias_sample_id"`, a sample whose entries do not
carry that time gets exactly the empty string in that cell.  (The column
header `"alias_sample_id"` itself collides with the row's id key, so a time
value equal to that string shows the sample id instead — see the
counterexample.) -/
theorem wide_pivot_columns (samples : List Sample) :
    (∀ t, t ∈ sortedTimes samples ↔
        ∃ s ∈ samples, ∃ e ∈ stmtsOf s, timeKey e = t) ∧
    (sortedTimes samples).Nodup ∧
    (sortedTimes samples).Pairwise
      (fun a b => parse_time_to_minutes a ≤ parse_time_to_minutes b) ∧
    (∀ s ∈ samples, ∀ t ∈ sortedTimes samples, t ≠ "alias_sample_id" →
        (∀ e ∈ stmtsOf s, timeKey e ≠ t) →
        dget (buildRow (sortedTimes samples) s) t = some (Val.vStr "")) := by
  refine ⟨fun t => mem_sortedTimes samples t, nodup_sortedTimes samples,
    sorted_sortedTimes samples, ?_⟩
  intro s _ t ht hne habs
  have hcell := cell_eq_joinBar samples s t ht hne
  have hp : pairsAt s t = [] := by
    rw [pairsAt, List.map_eq_nil, List.filter_eq_nil]
    intro e he
    simpa using habs e he
  rw [hcell, hp]
  rfl

/-- First sample of the spec's §8 scenario (`john_1.json`). -/
def sampleJohn1 : Sample :=
  ⟨Val.vInt 1, some [⟨some "08:00", some "Home", some "Sleeping"⟩],
    "john_1.json"⟩

/-- Second sample of the spec's §8 scenario (`john_2.json`). -/
def sampleJohn2 : Sample :=
  ⟨Val.vInt 2, some [⟨some "08:00", some "Work", some "Typing"⟩,
    ⟨some "09:15", some "Work", some "Meeting"⟩], "john_2.json"⟩

/-- The §8 scenario's alias group. -/
def aliasGroupJohn : List Sample := [sampleJohn1, sampleJohn2]

/-- Witness for the amended C5: in the §8 scenario, `john_1`'s row has the
empty string in the `09:15` column. -/
theorem wide_pivot_columns_witness :
    dget (buildRow (sortedTimes aliasGroupJohn) sampleJohn1) "09:15" =
      some (Val.vStr "") :=
  (wide_pivot_columns aliasGroupJohn).2.2.2 sampleJohn1 (by decide)
    "09:15" (by decide) (by decide) (by decide)

/-- A sample with no statement entries at all. -/
def sampleCollide2 : Sample := ⟨Val.vInt 2, some [], "x_2.json"⟩

/-- An alias group in which another sample's entry carries the time value
`"alias_sample_id"`. -/
def aliasGroupCollide : List Sample :=
  [⟨Val.vInt 1, some [⟨some "alias_sample_id", some "L", some "A"⟩],
    "x_1.json"⟩, sampleCollide2]

/-- Counterexample to C5 as stated: `"alias_sample_id"` is a time column of
the group, `sampleCollide2` has no entry with that time, yet its cell holds
the integer sample id `2`, not the empty string, because the time column
collides with the row dict's id key. -/
theorem wide_pivot_columns_counterexample :
    "alias_sample_id" ∈ sortedTimes aliasGroupCollide ∧
    stmtsOf sampleCollide2 = [] ∧
    dget (buildRow (sortedTimes aliasGroupCollide) sampleCollide2)
      "alias_sample_id" = some (Val.vInt 2) ∧
    Val.vInt 2 ≠ Val.vStr "" := by decide

/-- Claim C6 (amended): for every sample of the group and every time column
other than the literal `"alias_sample_id"`, the cell is the `" | "`-join of
the `"(location, activity)"` strings of the sample's entries at that time,
in entry order; when at least one entry matches and no formatted pair
contains the separator `" | "`, splitting the cell on `" | "` recovers
exactly that sequence.  (An empty cell splits to `[""]`, not to the empty
sequence — see the counterexample.) -/
theorem wide_cell_contents (samples : List Sample) (s : Sample) (t : String)
    (hs : s ∈ samples) (ht : t ∈ sortedTimes samples)
    (hne : t ≠ "alias_sample_id") :
    dget (buildRow (sortedTimes samples) s) t =
      some (Val.vStr (joinBar (pairsAt s t))) ∧
    (pairsAt s t ≠ [] →
      (∀ p ∈ pairsAt s t, hasSepChars p.data = false) →
      splitBar (joinBar (pairsAt s t)) = pairsAt s t) := by
  refine ⟨cell_eq_joinBar samples s t ht hne, ?_⟩
  intro hp hclean
  apply splitBar_joinBar _ hp
  intro p hpmem
  refine ⟨hclean p hpmem, ?_⟩
  obtain ⟨e, _, rfl⟩ := List.mem_map.mp hpmem
  exact endsWithSpaceBar_formatCell e

/-- Witness for the amended C6: in the §8 scenario, `john_2`'s `08:00` cell
is `"(Work, Typing)"` and splits back to exactly that pair list. -/
theorem wide_cell_contents_witness :
    dget (buildRow (sortedTimes aliasGroupJohn) sampleJohn2) "08:00" =
      some (Val.vStr (joinBar (pairsAt sampleJohn2 "08:00"))) ∧
    (pairsAt sampleJohn2 "08:00" ≠ [] →
      (∀ p ∈ pairsAt sampleJohn2 "08:00", hasSepChars p.data = false) →
      splitBar (joinBar (pairsAt sampleJohn2 "08:00")) =
        pairsAt sampleJohn2 "08:00") :=
  wide_cell_contents aliasGroupJohn sampleJohn2 "08:00" (by decide)
    (by decide) (by decide)

/-- Counterexample to C6 as stated: in the §8 scenario, `john_1`'s `09:15`
cell is the empty string; splitting it on `" | "` yields `[""]`, which is
not the (empty) sequence of pairs of `john_1`'s entries at `09:15`. -/
theorem wide_cell_contents_counterexample :
    dget (buildRow (sortedTimes aliasGroupJohn) sampleJohn1) "09:15" =
      some (Val.vStr "") ∧
    splitBar "" = [""] ∧
    pairsAt sampleJohn1 "09:15" = [] ∧
    ([""] : List String) ≠ [] := by decide

/-- Claim C10: an entry with a missing or empty `time` field sends the
empty string into the time set, so `""` becomes a column header sorting
with key `0`, and the entry's `(location, activity)` pair is recorded in
that empty-headed column rather than dropped. -/
theorem empty_time_becomes_column (samples : List Sample) (s : Sample)
    (e : Entry) (hs : s ∈ samples) (he : e ∈ stmtsOf s)
    (ht : e.time = none ∨ e.time = some "") :
    "" ∈ sortedTimes samples ∧
    parse_time_to_minutes "" = 0 ∧
    dget (buildRow (sortedTimes samples) s) "" =
      some (Val.vStr (joinBar (pairsAt s ""))) ∧
    formatCell e ∈ pairsAt s "" := by
  have hkey : timeKey e = "" := by
    rcases ht with h | h <;> simp [timeKey, h]
  have hmem : "" ∈ sortedTimes samples :=
    (mem_sortedTimes samples "").mpr ⟨s, hs, e, he, hkey⟩
  refine ⟨hmem, rfl, ?_, ?_⟩
  · exact cell_eq_joinBar samples s "" hmem (by decide)
  · rw [pairsAt]
    exact List.mem_map.mpr ⟨e, List.mem_filter.mpr ⟨he, by simp [hkey]⟩, rfl⟩

/-- A sample whose single entry has no `time` key. -/
def sampleNoTime : Sample :=
  ⟨Val.vInt 1, some [⟨none, some "Park", some "Walking"⟩], "p_1.json"⟩

/-- Witness for C10: the timeless entry's pair lands in the empty-headed
column of its group's wide table. -/
theorem empty_time_becomes_column_witness :
    "" ∈ sortedTimes [sampleNoTime] ∧
    parse_time_to_minutes "" = 0 ∧
    dget (buildRow (sortedTimes [sampleNoTime]) sampleNoTime) "" =
      some (Val.vStr (joinBar (pairsAt sampleNoTime ""))) ∧
    formatCell ⟨none, some "Park", some "Walking"⟩ ∈ pairsAt sampleNoTime "" :=
  empty_time_becomes_column [sampleNoTime] sampleNoTime
    ⟨none, some "Park", some "Walking"⟩ (by decide) (by decide)
    (Or.inl rfl)

end ConvertJsonToCsv
